import Mathlib

/-!
Shallow embedding of the code-installation interface of `ic-utils`
(`src/ic-utils/src/interfaces/management_canister.rs`) together with
the chunk-based install orchestration described by the design spec.

Bytes are modelled as `List Nat`, principals as wrapped byte lists,
and each remote method as a pure builder producing a call descriptor.
The orchestration (chunking strategy, chunked install, automatic
install) lives in the repository's `builders` module, which is not
part of the provided sources; those definitions are modelled from the
spec and marked as such in their doc comments.
-/

/-- A principal identifier: an opaque byte string (models `candid::Principal`). -/
structure Principal where
  bytes : List Nat
deriving DecidableEq, Repr

/-- The management canister's principal: the empty byte string `aaaaa-aa`
(models `Principal::management_canister()`). -/
def Principal.management_canister : Principal := ⟨[]⟩

/-- An agent handle; opaque to this interface (models `ic_agent::Agent`). -/
structure Agent where
  id : Nat
deriving DecidableEq, Repr

/-- A canister interface: an agent together with the addressed canister id
(models `ic_utils::Canister`). -/
structure Canister where
  agent : Agent
  canister_id : Principal
deriving DecidableEq, Repr

/-- Modelled from the spec: the builder for `Canister` (the repository's
`CanisterBuilder`, not under the provided sources). It accumulates an agent
and a canister id; finalization fails when either is missing. -/
structure CanisterBuilder where
  agent : Option Agent := none
  canister_id : Option Principal := none
deriving DecidableEq, Repr

/-- Models `Canister::builder()`. -/
def Canister.builder : CanisterBuilder := {}

/-- Models `CanisterBuilder::with_agent`. -/
def CanisterBuilder.with_agent (b : CanisterBuilder) (a : Agent) : CanisterBuilder :=
  { b with agent := some a }

/-- Models `CanisterBuilder::with_canister_id`. -/
def CanisterBuilder.with_canister_id (b : CanisterBuilder) (p : Principal) : CanisterBuilder :=
  { b with canister_id := some p }

/-- Modelled from the spec: finalizing the canister builder, which errors
when a required field is missing. -/
def CanisterBuilder.build (b : CanisterBuilder) : Except String Canister :=
  match b.agent, b.canister_id with
  | some a, some c => .ok ⟨a, c⟩
  | _, _ => .error "missing field"

/-- The management-canister interface (models `ManagementCanister`). -/
structure ManagementCanister where
  canister : Canister
deriving DecidableEq, Repr

/-- Models `ManagementCanister::create`: builds a `Canister` pointed at the
management-canister principal and unwraps the result.  The Rust `unwrap`
(a potential panic) is rendered as `Option`; `none` models the panic. -/
def ManagementCanister.create (agent : Agent) : Option ManagementCanister :=
  (((Canister.builder.with_agent agent).with_canister_id
      Principal.management_canister).build).toOption.map (fun c => ⟨c⟩)

/-- Models `ManagementCanister::from_canister`. -/
def ManagementCanister.from_canister (c : Canister) : ManagementCanister := ⟨c⟩

/-- All the known methods of the management canister (models `MgmtMethod`). -/
inductive MgmtMethod where
  | CreateCanister
  | InstallCode
  | StartCanister
  | StopCanister
  | CanisterStatus
  | DeleteCanister
  | DepositCycles
  | RawRand
  | ProvisionalCreateCanisterWithCycles
  | ProvisionalTopUpCanister
  | UninstallCode
  | UpdateSettings
  | UploadChunk
  | ClearChunkStore
  | StoredChunks
  | InstallChunkedCode
deriving DecidableEq, Repr

/-- Models the `strum` snake-case serialization declared by
`#[strum(serialize_all = "snake_case")]` on `MgmtMethod`. -/
def MgmtMethod.as_ref : MgmtMethod → String
  | .CreateCanister => "create_canister"
  | .InstallCode => "install_code"
  | .StartCanister => "start_canister"
  | .StopCanister => "stop_canister"
  | .CanisterStatus => "canister_status"
  | .DeleteCanister => "delete_canister"
  | .DepositCycles => "deposit_cycles"
  | .RawRand => "raw_rand"
  | .ProvisionalCreateCanisterWithCycles => "provisional_create_canister_with_cycles"
  | .ProvisionalTopUpCanister => "provisional_top_up_canister"
  | .UninstallCode => "uninstall_code"
  | .UpdateSettings => "update_settings"
  | .UploadChunk => "upload_chunk"
  | .ClearChunkStore => "clear_chunk_store"
  | .StoredChunks => "stored_chunks"
  | .InstallChunkedCode => "install_chunked_code"

/-- A SHA-256 hash of a WASM chunk (models `ChunkHash = [u8; 32]`). -/
abbrev ChunkHash : Type := { l : List Nat // l.length = 32 }

/-- The candid argument payloads used by the per-canister methods: each
constructor mirrors one of the ad-hoc `Argument`/`In` structs in the source. -/
inductive ArgPayload where
  | canisterIdRecord (canister_id : Principal)
  | canisterIdChunk (canister_id : Principal) (chunk : List Nat)
  | canisterIdAmount (canister_id : Principal) (amount : Nat)
  | empty
deriving DecidableEq, Repr

/-- The decoded result type each method is declared with in the source
(the type argument of `AsyncCall`). -/
inductive ResultType where
  | statusResult
  | unitResult
  | bytesResult
  | chunkHashResult
  | chunkHashVecResult
deriving DecidableEq, Repr

/-- The finalized call descriptor handed to the transport layer: the
addressed canister, wire method name, argument payload, effective routing
identity and declared result type. -/
structure CallDescriptor where
  canister_id : Principal
  method : String
  arg : Option ArgPayload
  effective_canister_id : Option Principal
  result : ResultType
deriving DecidableEq, Repr

/-- The in-flight builder produced by `Canister::update` before finalization. -/
structure AsyncCallBuilder where
  canister_id : Principal
  method : String
  arg : Option ArgPayload := none
  effective_canister_id : Option Principal := none
deriving DecidableEq, Repr

/-- Models `Canister::update(method)`. -/
def Canister.update (c : Canister) (method : String) : AsyncCallBuilder :=
  { canister_id := c.canister_id, method := method }

/-- Models `.with_arg(arg)` on an update-call builder. -/
def AsyncCallBuilder.with_arg (b : AsyncCallBuilder) (a : ArgPayload) : AsyncCallBuilder :=
  { b with arg := some a }

/-- Models `.with_effective_canister_id(id)` on an update-call builder. -/
def AsyncCallBuilder.with_effective_canister_id (b : AsyncCallBuilder) (p : Principal) :
    AsyncCallBuilder :=
  { b with effective_canister_id := some p }

/-- Models `.build()` on an update-call builder, with the declared result type. -/
def AsyncCallBuilder.build (b : AsyncCallBuilder) (rt : ResultType) : CallDescriptor :=
  { canister_id := b.canister_id, method := b.method, arg := b.arg,
    effective_canister_id := b.effective_canister_id, result := rt }

/-- Models `ManagementCanister::canister_status`. -/
def ManagementCanister.canister_status (mc : ManagementCanister) (canister_id : Principal) :
    CallDescriptor :=
  ((mc.canister.update MgmtMethod.CanisterStatus.as_ref).with_arg
      (.canisterIdRecord canister_id)).with_effective_canister_id canister_id
    |>.build .statusResult

/-- Models `ManagementCanister::deposit_cycles`. -/
def ManagementCanister.deposit_cycles (mc : ManagementCanister) (canister_id : Principal) :
    CallDescriptor :=
  ((mc.canister.update MgmtMethod.DepositCycles.as_ref).with_arg
      (.canisterIdRecord canister_id)).with_effective_canister_id canister_id
    |>.build .unitResult

/-- Models `ManagementCanister::delete_canister`. -/
def ManagementCanister.delete_canister (mc : ManagementCanister) (canister_id : Principal) :
    CallDescriptor :=
  ((mc.canister.update MgmtMethod.DeleteCanister.as_ref).with_arg
      (.canisterIdRecord canister_id)).with_effective_canister_id canister_id
    |>.build .unitResult

/-- Models `ManagementCanister::provisional_top_up_canister`. -/
def ManagementCanister.provisional_top_up_canister (mc : ManagementCanister)
    (canister_id : Principal) (amount : Nat) : CallDescriptor :=
  ((mc.canister.update MgmtMethod.ProvisionalTopUpCanister.as_ref).with_arg
      (.canisterIdAmount canister_id amount)).with_effective_canister_id canister_id
    |>.build .unitResult

/-- Models `ManagementCanister::raw_rand`. -/
def ManagementCanister.raw_rand (mc : ManagementCanister) : CallDescriptor :=
  (mc.canister.update MgmtMethod.RawRand.as_ref).build .bytesResult

/-- Models `ManagementCanister::start_canister`. -/
def ManagementCanister.start_canister (mc : ManagementCanister) (canister_id : Principal) :
    CallDescriptor :=
  ((mc.canister.update MgmtMethod.StartCanister.as_ref).with_arg
      (.canisterIdRecord canister_id)).with_effective_canister_id canister_id
    |>.build .unitResult

/-- Models `ManagementCanister::stop_canister`. -/
def ManagementCanister.stop_canister (mc : ManagementCanister) (canister_id : Principal) :
    CallDescriptor :=
  ((mc.canister.update MgmtMethod.StopCanister.as_ref).with_arg
      (.canisterIdRecord canister_id)).with_effective_canister_id canister_id
    |>.build .unitResult

/-- Models `ManagementCanister::uninstall_code`. -/
def ManagementCanister.uninstall_code (mc : ManagementCanister) (canister_id : Principal) :
    CallDescriptor :=
  ((mc.canister.update MgmtMethod.UninstallCode.as_ref).with_arg
      (.canisterIdRecord canister_id)).with_effective_canister_id canister_id
    |>.build .unitResult

/-- Models `ManagementCanister::upload_chunk`. -/
def ManagementCanister.upload_chunk (mc : ManagementCanister) (canister_id : Principal)
    (chunk : List Nat) : CallDescriptor :=
  ((mc.canister.update MgmtMethod.UploadChunk.as_ref).with_arg
      (.canisterIdChunk canister_id chunk)).with_effective_canister_id canister_id
    |>.build .chunkHashResult

/-- Models `ManagementCanister::clear_chunk_store`. -/
def ManagementCanister.clear_chunk_store (mc : ManagementCanister) (canister_id : Principal) :
    CallDescriptor :=
  ((mc.canister.update MgmtMethod.ClearChunkStore.as_ref).with_arg
      (.canisterIdRecord canister_id)).with_effective_canister_id canister_id
    |>.build .unitResult

/-- Models `ManagementCanister::stored_chunks`. -/
def ManagementCanister.stored_chunks (mc : ManagementCanister) (canister_id : Principal) :
    CallDescriptor :=
  ((mc.canister.update MgmtMethod.StoredChunks.as_ref).with_arg
      (.canisterIdRecord canister_id)).with_effective_canister_id canister_id
    |>.build .chunkHashVecResult

/-- A chunk digest: the content hash of a byte buffer (32 bytes in the real
system; modelled abstractly as a byte list). -/
abbrev Digest := List Nat

/-- The install mode passed through to the host (models `InstallMode`). -/
inductive InstallMode where
  | install
  | reinstall
  | upgrade
deriving DecidableEq, Repr

/-- Modelled from the spec: the tagged union returned by the Chunking
Strategy (`plan`), part of the missing `builders` module. -/
inductive InstallPlan where
  | OneShot (module : List Nat)
  | Chunked (ordered_chunks : List (List Nat))
deriving DecidableEq, Repr

/-- Modelled from the spec: walking a module left-to-right in fixed-size
windows of `max_chunk_size`, the final chunk taking the remainder; an empty
module yields a single empty chunk.  (Chunking lives in the repository's
missing `builders` module.)  The degenerate window size 0 returns the whole
module as one chunk so that the walk terminates. -/
def chunksOf (max_chunk_size : Nat) (m : List Nat) : List (List Nat) :=
  if max_chunk_size = 0 ∨ m.length ≤ max_chunk_size then [m]
  else m.take max_chunk_size :: chunksOf max_chunk_size (m.drop max_chunk_size)
termination_by m.length
decreasing_by
  simp only [List.length_drop]
  omega

/-- The lengths a chunk walk produces, as a function of the module length
only; used to reason about chunk sizes without materializing big modules. -/
def chunkSizes (max_chunk_size n : Nat) : List Nat :=
  if max_chunk_size = 0 ∨ n ≤ max_chunk_size then [n]
  else max_chunk_size :: chunkSizes max_chunk_size (n - max_chunk_size)
termination_by n
decreasing_by
  omega

/-- Modelled from the spec: the Chunking Strategy
`plan(module, max_chunk_size, threshold) -> InstallPlan`: one-shot when the
module fits under the threshold, chunked otherwise. -/
def plan (module : List Nat) (max_chunk_size threshold : Nat) : InstallPlan :=
  if module.length ≤ threshold then .OneShot module
  else .Chunked (chunksOf max_chunk_size module)

/-- An error from a remote call, as seen by the orchestrator. -/
inductive CallErr where
  | transport
  | protocolRejected
deriving DecidableEq, Repr

/-- The orchestrator's error taxonomy: a locally detected validation failure
(digest mismatch) or a failed remote call. -/
inductive OrchError where
  | validation
  | remote (e : CallErr)
deriving DecidableEq, Repr

/-- The terminal state of one orchestration run. -/
inductive RunState where
  | done
  | failed (e : OrchError)
deriving DecidableEq, Repr

/-- One remote call issued by the orchestrator, recorded in the run's trace. -/
inductive CallEvent where
  | uploadChunk (target : Principal) (chunk : List Nat)
  | clearChunkStore (target : Principal)
  | installChunkedCode (target : Principal) (manifest : List Digest)
      (module_digest : Digest) (mode : InstallMode) (args : List Nat)
  | installCode (target : Principal) (wasm : List Nat) (mode : InstallMode)
      (args : List Nat)
deriving DecidableEq, Repr

/-- The remote host's responses, supplied as a deterministic oracle: the
digest it reports for an uploaded chunk and the outcomes of the terminal
calls and of clearing the chunk store. -/
structure Oracle where
  upload : List Nat → Except CallErr Digest
  installChunkedResp : Except CallErr Unit
  installCodeResp : Except CallErr Unit
  clearResp : Except CallErr Unit

/-- The orchestrator's in-flight state while uploading chunks: the trace of
issued calls, the digests known to be stored remotely (snapshot plus this
run's confirmed uploads), the manifest assembled so far, and the first error
if one occurred. -/
structure UpState where
  trace : List CallEvent
  known : List Digest
  manifest : List Digest
  err : Option OrchError
deriving DecidableEq, Repr

/-- Modelled from the spec: processing one chunk of an `install_chunked`
run.  After an error the run is aborted, so the state passes through
unchanged; otherwise a chunk whose digest is already known is skipped (its
digest still enters the manifest), and an unknown chunk is uploaded, the
host-reported digest checked against the local one (mismatch is a
validation error). -/
def stepChunk (hash : List Nat → Digest) (oracle : Oracle) (target : Principal)
    (s : UpState) (c : List Nat) : UpState :=
  match s.err with
  | some _ => s
  | none =>
    let d := hash c
    if d ∈ s.known then { s with manifest := s.manifest ++ [d] }
    else
      match oracle.upload c with
      | .error e =>
          { s with trace := s.trace ++ [.uploadChunk target c], err := some (.remote e) }
      | .ok r =>
          if r = d then
            { trace := s.trace ++ [.uploadChunk target c], known := s.known ++ [d],
              manifest := s.manifest ++ [d], err := none }
          else
            { s with
              trace := s.trace ++ [.uploadChunk target c]
              err := some .validation }

/-- Modelled from the spec: `install_chunked(target, ordered_chunks, mode,
init_args)`: upload the chunks not already present in the caller-supplied
remote snapshot (deduplicating within the run as well), assemble the full
manifest in original order, and issue the terminal `install_chunked_code`
call only when every upload has been confirmed.  Returns the trace of
issued calls and the run's terminal state. -/
def install_chunked (hash : List Nat → Digest) (oracle : Oracle) (target : Principal)
    (ordered_chunks : List (List Nat)) (remote : List Digest) (mode : InstallMode)
    (init_args : List Nat) : List CallEvent × RunState :=
  let s := ordered_chunks.foldl (stepChunk hash oracle target)
    { trace := [], known := remote, manifest := [], err := none }
  match s.err with
  | some e => (s.trace, .failed e)
  | none =>
    let call : CallEvent :=
      .installChunkedCode target s.manifest (hash ordered_chunks.flatten) mode init_args
    match oracle.installChunkedResp with
    | .ok _ => (s.trace ++ [call], .done)
    | .error e => (s.trace ++ [call], .failed (.remote e))

/-- Modelled from the spec: `install_auto(target, module, mode, init_args)`
(`ManagementCanister::install` / `InstallBuilder`): run the Chunking
Strategy; a one-shot plan issues a single `install_code` call carrying the
raw bytes with no chunk-store interaction; a chunked plan delegates to
`install_chunked` and clears the host's chunk store after a successful
install. -/
def install_auto (hash : List Nat → Digest) (oracle : Oracle) (target : Principal)
    (module : List Nat) (max_chunk_size threshold : Nat) (remote : List Digest)
    (mode : InstallMode) (init_args : List Nat) : List CallEvent × RunState :=
  match plan module max_chunk_size threshold with
  | .OneShot m =>
    match oracle.installCodeResp with
    | .ok _ => ([.installCode target m mode init_args], .done)
    | .error e => ([.installCode target m mode init_args], .failed (.remote e))
  | .Chunked cs =>
    match install_chunked hash oracle target cs remote mode init_args with
    | (tr, .done) =>
      match oracle.clearResp with
      | .ok _ => (tr ++ [.clearChunkStore target], .done)
      | .error e => (tr ++ [.clearChunkStore target], .failed (.remote e))
    | (tr, .failed e) => (tr, .failed e)

/-- The ordered list of chunks the orchestrator is expected to upload:
those whose digest is neither in the remote snapshot nor equal to the
digest of an earlier uploaded chunk of the same run. -/
def expectedUploads (hash : List Nat → Digest) (known : List Digest) :
    List (List Nat) → List (List Nat)
  | [] => []
  | c :: cs =>
    if hash c ∈ known then expectedUploads hash known cs
    else c :: expectedUploads hash (known ++ [hash c]) cs

/-- The chunks carried by the upload events of a trace, in order. -/
def uploadsOf (tr : List CallEvent) : List (List Nat) :=
  tr.filterMap (fun e =>
    match e with
    | .uploadChunk _ c => some c
    | _ => none)

theorem chunksOf_flatten (k : Nat) (m : List Nat) : (chunksOf k m).flatten = m := by
  induction m using chunksOf.induct k with
  | case1 m h => rw [chunksOf, if_pos h]; simp
  | case2 m h ih =>
    rw [chunksOf, if_neg h]
    simp only [List.flatten_cons, ih, List.take_append_drop]

theorem chunksOf_map_length (k : Nat) (m : List Nat) :
    (chunksOf k m).map List.length = chunkSizes k (m.length) := by
  induction m using chunksOf.induct k with
  | case1 m h => rw [chunksOf, if_pos h, chunkSizes, if_pos h]; simp
  | case2 m h ih =>
    rw [chunksOf, if_neg h, chunkSizes, if_neg h]
    push_neg at h
    simp only [List.map_cons, ih, List.length_drop, List.length_take]
    congr 2
    omega

theorem chunkSizes_ne_nil (k n : Nat) : chunkSizes k n ≠ [] := by
  rw [chunkSizes]
  split <;> simp

theorem chunkSizes_length (k : Nat) (hk : 0 < k) :
    ∀ n, 0 < n → (chunkSizes k n).length = (n + k - 1) / k := by
  intro n
  induction n using chunkSizes.induct k with
  | case1 n h =>
    intro hn
    rw [chunkSizes, if_pos h]
    have h1 : 1 * k ≤ n + k - 1 := by omega
    have h2 : n + k - 1 < (1 + 1) * k := by omega
    rw [List.length_singleton, Nat.div_eq_of_lt_le h1 h2]
  | case2 n h ih =>
    intro hn
    push_neg at h
    rw [chunkSizes, if_neg (by omega)]
    have ih' := ih (by omega)
    simp only [List.length_cons, ih']
    have he : n + k - 1 = (n - k + k - 1) + k := by omega
    rw [he, Nat.add_div_right _ hk]

theorem chunkSizes_dropLast (k : Nat) : ∀ n, ∀ s ∈ (chunkSizes k n).dropLast, s = k := by
  intro n
  induction n using chunkSizes.induct k with
  | case1 n h => rw [chunkSizes, if_pos h]; simp
  | case2 n h ih =>
    rw [chunkSizes, if_neg h]
    obtain ⟨a, as, hcs⟩ := List.exists_cons_of_ne_nil (chunkSizes_ne_nil k (n - k))
    rw [hcs, List.dropLast_cons₂]
    intro s hs
    rcases List.mem_cons.mp hs with hsk | hs2
    · exact hsk
    · exact ih s (by rw [hcs]; exact hs2)

theorem chunkSizes_getLast (k : Nat) (hk : 0 < k) :
    ∀ n, 0 < n → ∃ r, (chunkSizes k n).getLast? = some r ∧ 0 < r ∧ r ≤ k ∧
      r + ((chunkSizes k n).length - 1) * k = n := by
  intro n
  induction n using chunkSizes.induct k with
  | case1 n h =>
    intro hn
    rw [chunkSizes, if_pos h]
    exact ⟨n, by simp, hn, by omega, by simp⟩
  | case2 n h ih =>
    intro hn
    push_neg at h
    rw [chunkSizes, if_neg (by omega)]
    obtain ⟨r, hr1, hr2, hr3, hr4⟩ := ih (by omega)
    refine ⟨r, ?_, hr2, hr3, ?_⟩
    · obtain ⟨a, as, hcs⟩ := List.exists_cons_of_ne_nil (chunkSizes_ne_nil k (n - k))
      rw [hcs, List.getLast?_cons_cons, ← hcs, hr1]
    · have hlen : 1 ≤ (chunkSizes k (n - k)).length :=
        List.length_pos.mpr (chunkSizes_ne_nil k (n - k))
      obtain ⟨d, hd⟩ : ∃ d, (chunkSizes k (n - k)).length = d + 1 :=
        ⟨(chunkSizes k (n - k)).length - 1, by omega⟩
      rw [hd] at hr4
      simp only [List.length_cons, hd, Nat.add_sub_cancel] at hr4 ⊢
      rw [Nat.succ_mul]
      generalize d * k = e at hr4 ⊢
      omega

/-- C1: for every module `m` with `len(m) > threshold`, the chunks produced
by the Chunking Strategy, concatenated in manifest order (the order in which
the walk produced them), are exactly equal to `m`. -/
theorem chunking_roundtrip (m : List Nat) (max_chunk_size threshold : Nat)
    (h : threshold < m.length) :
    ∃ cs, plan m max_chunk_size threshold = .Chunked cs ∧ cs.flatten = m := by
  refine ⟨chunksOf max_chunk_size m, ?_, chunksOf_flatten max_chunk_size m⟩
  rw [plan, if_neg (by omega)]

/-- Witness for C1 at a concrete module. -/
theorem chunking_roundtrip_witness :
    ∃ cs, plan [7, 8, 9] 2 0 = .Chunked cs ∧ cs.flatten = [7, 8, 9] :=
  chunking_roundtrip [7, 8, 9] 2 0 (by decide)

/-- C3: for every module longer than the threshold and every positive
`max_chunk_size`, the chunk walk yields `ceil(len / max_chunk_size)` chunks,
all of size `max_chunk_size` except the last, which carries the nonempty
remainder; in particular a 2,500,001-byte module with chunk size 1,000,000
yields sizes 1,000,000 / 1,000,000 / 500,001. -/
theorem chunking_walk_sizes (max_chunk_size threshold : Nat) (m : List Nat)
    (hk : 0 < max_chunk_size) (hm : threshold < m.length) :
    (chunksOf max_chunk_size m).length = (m.length + max_chunk_size - 1) / max_chunk_size ∧
    (∀ s ∈ ((chunksOf max_chunk_size m).map List.length).dropLast, s = max_chunk_size) ∧
    (∃ r, ((chunksOf max_chunk_size m).map List.length).getLast? = some r ∧
      0 < r ∧ r ≤ max_chunk_size ∧
      r + ((chunksOf max_chunk_size m).length - 1) * max_chunk_size = m.length) ∧
    (chunksOf 1000000 (List.replicate 2500001 0)).map List.length =
      [1000000, 1000000, 500001] := by
  have hn : 0 < m.length := by omega
  have hlen : (chunksOf max_chunk_size m).length = (chunkSizes max_chunk_size m.length).length := by
    rw [← chunksOf_map_length, List.length_map]
  refine ⟨?_, ?_, ?_, ?_⟩
  · rw [hlen, chunkSizes_length max_chunk_size hk m.length hn]
  · rw [chunksOf_map_length]
    exact chunkSizes_dropLast max_chunk_size m.length
  · obtain ⟨r, h1, h2, h3, h4⟩ := chunkSizes_getLast max_chunk_size hk m.length hn
    exact ⟨r, by rw [chunksOf_map_length]; exact h1, h2, h3, by rw [hlen]; exact h4⟩
  · rw [chunksOf_map_length]
    simp only [List.length_replicate]
    rw [chunkSizes]
    norm_num
    rw [chunkSizes]
    norm_num
    rw [chunkSizes]
    norm_num

/-- Witness for C3 at a concrete module of 7 bytes with chunk size 3. -/
theorem chunking_walk_sizes_witness :
    (chunksOf 3 [0, 1, 2, 3, 4, 5, 6]).length =
      ([0, 1, 2, 3, 4, 5, 6].length + 3 - 1) / 3 ∧
    (∀ s ∈ ((chunksOf 3 [0, 1, 2, 3, 4, 5, 6]).map List.length).dropLast, s = 3) ∧
    (∃ r, ((chunksOf 3 [0, 1, 2, 3, 4, 5, 6]).map List.length).getLast? = some r ∧
      0 < r ∧ r ≤ 3 ∧
      r + ((chunksOf 3 [0, 1, 2, 3, 4, 5, 6]).length - 1) * 3 =
        [0, 1, 2, 3, 4, 5, 6].length) ∧
    (chunksOf 1000000 (List.replicate 2500001 0)).map List.length =
      [1000000, 1000000, 500001] :=
  chunking_walk_sizes 3 5 [0, 1, 2, 3, 4, 5, 6] (by decide) (by decide)

theorem stepChunk_err (hash : List Nat → Digest) (oracle : Oracle) (target : Principal)
    (s : UpState) (c : List Nat) (e : OrchError) (h : s.err = some e) :
    stepChunk hash oracle target s c = s := by
  unfold stepChunk
  rw [h]

theorem stepChunk_skip (hash : List Nat → Digest) (oracle : Oracle) (target : Principal)
    (s : UpState) (c : List Nat) (hs : s.err = none) (hd : hash c ∈ s.known) :
    stepChunk hash oracle target s c = { s with manifest := s.manifest ++ [hash c] } := by
  unfold stepChunk
  rw [hs]
  simp [hd]

theorem stepChunk_upload_ok (hash : List Nat → Digest) (oracle : Oracle) (target : Principal)
    (s : UpState) (c : List Nat) (hs : s.err = none) (hd : hash c ∉ s.known)
    (hr : oracle.upload c = .ok (hash c)) :
    stepChunk hash oracle target s c =
      { trace := s.trace ++ [.uploadChunk target c], known := s.known ++ [hash c],
        manifest := s.manifest ++ [hash c], err := none } := by
  unfold stepChunk
  rw [hs]
  simp [hd, hr]

theorem stepChunk_upload_mismatch (hash : List Nat → Digest) (oracle : Oracle)
    (target : Principal) (s : UpState) (c : List Nat) (r : Digest) (hs : s.err = none)
    (hd : hash c ∉ s.known) (hr : oracle.upload c = .ok r) (hne : r ≠ hash c) :
    stepChunk hash oracle target s c =
      { s with trace := s.trace ++ [.uploadChunk target c], err := some .validation } := by
  unfold stepChunk
  rw [hs]
  simp [hd, hr, hne]

theorem stepChunk_upload_error (hash : List Nat → Digest) (oracle : Oracle)
    (target : Principal) (s : UpState) (c : List Nat) (e : CallErr) (hs : s.err = none)
    (hd : hash c ∉ s.known) (hr : oracle.upload c = .error e) :
    stepChunk hash oracle target s c =
      { s with trace := s.trace ++ [.uploadChunk target c], err := some (.remote e) } := by
  unfold stepChunk
  rw [hs]
  simp [hd, hr]

theorem foldl_stepChunk_absorb (hash : List Nat → Digest) (oracle : Oracle)
    (target : Principal) (cs : List (List Nat)) (s : UpState) (e : OrchError)
    (h : s.err = some e) :
    cs.foldl (stepChunk hash oracle target) s = s := by
  induction cs with
  | nil => rfl
  | cons c cs ih => rw [List.foldl_cons, stepChunk_err hash oracle target s c e h, ih]

theorem foldl_stepChunk_honest (hash : List Nat → Digest) (oracle : Oracle)
    (target : Principal) (honest : ∀ c, oracle.upload c = .ok (hash c)) :
    ∀ (cs : List (List Nat)) (s : UpState), s.err = none →
      cs.foldl (stepChunk hash oracle target) s =
        { trace := s.trace ++ (expectedUploads hash s.known cs).map (CallEvent.uploadChunk target),
          known := s.known ++ (expectedUploads hash s.known cs).map hash,
          manifest := s.manifest ++ cs.map hash,
          err := none } := by
  intro cs
  induction cs with
  | nil =>
    intro s hs
    simp only [List.foldl_nil, expectedUploads, List.map_nil, List.append_nil]
    cases s
    simp_all
  | cons c cs ih =>
    intro s hs
    rw [List.foldl_cons]
    by_cases hd : hash c ∈ s.known
    · rw [stepChunk_skip hash oracle target s c hs hd]
      rw [ih _ (by simp [hs])]
      simp only [expectedUploads, if_pos hd, List.map_cons]
      simp [List.append_assoc]
    · rw [stepChunk_upload_ok hash oracle target s c hs hd (honest c)]
      rw [ih _ (by simp)]
      simp only [expectedUploads, if_neg hd, List.map_cons]
      simp [List.append_assoc]

theorem foldl_stepChunk_trace_shape (hash : List Nat → Digest) (oracle : Oracle)
    (target : Principal) :
    ∀ (cs : List (List Nat)) (s : UpState),
      ∀ e ∈ (cs.foldl (stepChunk hash oracle target) s).trace,
        e ∈ s.trace ∨ ∃ c, e = CallEvent.uploadChunk target c := by
  intro cs
  induction cs with
  | nil => intro s e he; exact Or.inl he
  | cons c cs ih =>
    intro s e he
    rcases hserr : s.err with _ | err
    · by_cases hd : hash c ∈ s.known
      · rw [List.foldl_cons, stepChunk_skip hash oracle target s c hserr hd] at he
        rcases ih _ e he with h | h
        · exact Or.inl h
        · exact Or.inr h
      · rcases hup : oracle.upload c with e2 | r
        · rw [List.foldl_cons, stepChunk_upload_error hash oracle target s c e2 hserr hd hup,
            foldl_stepChunk_absorb hash oracle target cs _ (.remote e2) rfl] at he
          simp only [List.mem_append, List.mem_singleton] at he
          rcases he with h | h
          · exact Or.inl h
          · exact Or.inr ⟨c, h⟩
        · by_cases hr : r = hash c
          · subst hr
            rw [List.foldl_cons, stepChunk_upload_ok hash oracle target s c hserr hd hup] at he
            rcases ih _ e he with h | h
            · simp only [List.mem_append, List.mem_singleton] at h
              rcases h with h | h
              · exact Or.inl h
              · exact Or.inr ⟨c, h⟩
            · exact Or.inr h
          · rw [List.foldl_cons,
              stepChunk_upload_mismatch hash oracle target s c r hserr hd hup hr,
              foldl_stepChunk_absorb hash oracle target cs _ .validation rfl] at he
            simp only [List.mem_append, List.mem_singleton] at he
            rcases he with h | h
            · exact Or.inl h
            · exact Or.inr ⟨c, h⟩
    · rw [List.foldl_cons, stepChunk_err hash oracle target s c err hserr] at he
      rcases ih _ e he with h | h
      · exact Or.inl h
      · exact Or.inr h

theorem foldl_stepChunk_bad (hash : List Nat → Digest) (oracle : Oracle) (target : Principal)
    (c : List Nat) (bad : OrchError)
    (hbad : (∃ e, oracle.upload c = .error e ∧ bad = .remote e) ∨
            (∃ r, oracle.upload c = .ok r ∧ r ≠ hash c ∧ bad = .validation)) :
    ∀ (cs : List (List Nat)) (s : UpState), s.err = none →
      s.trace.count (CallEvent.uploadChunk target c) = 0 →
      CallEvent.uploadChunk target c ∈ (cs.foldl (stepChunk hash oracle target) s).trace →
      (cs.foldl (stepChunk hash oracle target) s).err = some bad ∧
      (cs.foldl (stepChunk hash oracle target) s).trace.getLast? =
        some (CallEvent.uploadChunk target c) ∧
      (cs.foldl (stepChunk hash oracle target) s).trace.count
        (CallEvent.uploadChunk target c) = 1 := by
  intro cs
  induction cs with
  | nil =>
    intro s hserr hcount hmem
    exact absurd hmem (List.count_eq_zero.mp hcount)
  | cons c2 cs ih =>
    intro s hserr hcount hmem
    rw [List.foldl_cons] at hmem ⊢
    by_cases hd : hash c2 ∈ s.known
    · rw [stepChunk_skip hash oracle target s c2 hserr hd] at hmem ⊢
      exact ih _ (by simp [hserr]) hcount hmem
    · rcases hup : oracle.upload c2 with e2 | r
      · rw [stepChunk_upload_error hash oracle target s c2 e2 hserr hd hup,
          foldl_stepChunk_absorb hash oracle target cs _ (.remote e2) rfl] at hmem ⊢
        simp only [List.mem_append, List.mem_singleton] at hmem
        rcases hmem with h | h
        · exact absurd h (List.count_eq_zero.mp hcount)
        · have hc : c = c2 := by simpa using h
          subst hc
          rcases hbad with ⟨e3, he3, hbe⟩ | ⟨r3, hr3, _, _⟩
          · rw [hup] at he3
            obtain rfl : e3 = e2 := by injection he3.symm
            subst hbe
            refine ⟨rfl, List.getLast?_concat _, ?_⟩
            rw [List.count_append, hcount, List.count_singleton]
            simp
          · rw [hup] at hr3
            exact absurd hr3 (by simp)
      · by_cases hr : r = hash c2
        · subst hr
          rw [stepChunk_upload_ok hash oracle target s c2 hserr hd hup] at hmem ⊢
          have hne : c ≠ c2 := by
            rintro rfl
            rcases hbad with ⟨e3, he3, _⟩ | ⟨r3, hr3, hne3, _⟩
            · rw [hup] at he3
              exact absurd he3 (by simp)
            · rw [hup] at hr3
              obtain rfl : r3 = hash c := by injection hr3.symm
              exact hne3 rfl
          refine ih _ (by simp) ?_ hmem
          rw [List.count_append, hcount, List.count_singleton]
          simp [Ne.symm hne]
        · rw [stepChunk_upload_mismatch hash oracle target s c2 r hserr hd hup hr,
            foldl_stepChunk_absorb hash oracle target cs _ .validation rfl] at hmem ⊢
          simp only [List.mem_append, List.mem_singleton] at hmem
          rcases hmem with h | h
          · exact absurd h (List.count_eq_zero.mp hcount)
          · have hc : c = c2 := by simpa using h
            subst hc
            rcases hbad with ⟨e3, he3, _⟩ | ⟨r3, hr3, hne3, hbe⟩
            · rw [hup] at he3
              exact absurd he3 (by simp)
            · subst hbe
              refine ⟨rfl, List.getLast?_concat _, ?_⟩
              rw [List.count_append, hcount, List.count_singleton]
              simp

theorem foldl_stepChunk_success (hash : List Nat → Digest) (oracle : Oracle)
    (target : Principal) :
    ∀ (cs : List (List Nat)) (s : UpState), s.err = none →
      (cs.foldl (stepChunk hash oracle target) s).err = none →
      (cs.foldl (stepChunk hash oracle target) s).manifest = s.manifest ++ cs.map hash ∧
      (∀ c, CallEvent.uploadChunk target c ∈ (cs.foldl (stepChunk hash oracle target) s).trace →
        CallEvent.uploadChunk target c ∈ s.trace ∨ oracle.upload c = .ok (hash c)) := by
  intro cs
  induction cs with
  | nil =>
    intro s hserr hok
    exact ⟨by simp, fun c hc => Or.inl hc⟩
  | cons c2 cs ih =>
    intro s hserr hok
    rw [List.foldl_cons] at hok ⊢
    by_cases hd : hash c2 ∈ s.known
    · rw [stepChunk_skip hash oracle target s c2 hserr hd] at hok ⊢
      obtain ⟨h1, h2⟩ := ih _ (by simp [hserr]) hok
      refine ⟨?_, h2⟩
      rw [h1]
      simp
    · rcases hup : oracle.upload c2 with e2 | r
      · rw [stepChunk_upload_error hash oracle target s c2 e2 hserr hd hup,
          foldl_stepChunk_absorb hash oracle target cs _ (.remote e2) rfl] at hok
        exact absurd hok (by simp)
      · by_cases hr : r = hash c2
        · subst hr
          rw [stepChunk_upload_ok hash oracle target s c2 hserr hd hup] at hok ⊢
          obtain ⟨h1, h2⟩ := ih _ (by simp) hok
          refine ⟨by rw [h1]; simp, ?_⟩
          intro c hc
          rcases h2 c hc with h | h
          · simp only [List.mem_append, List.mem_singleton] at h
            rcases h with h | h
            · exact Or.inl h
            · have hc2 : c = c2 := by simpa using h
              subst hc2
              exact Or.inr hup
          · exact Or.inr h
        · rw [stepChunk_upload_mismatch hash oracle target s c2 r hserr hd hup hr,
            foldl_stepChunk_absorb hash oracle target cs _ .validation rfl] at hok
          exact absurd hok (by simp)

theorem foldl_stepChunk_count (hash : List Nat → Digest) (oracle : Oracle)
    (target : Principal) (c : List Nat) :
    ∀ (cs : List (List Nat)) (s : UpState),
      s.trace.count (CallEvent.uploadChunk target c) ≤ 1 →
      (s.trace.count (CallEvent.uploadChunk target c) = 1 →
        hash c ∈ s.known ∨ s.err ≠ none) →
      (cs.foldl (stepChunk hash oracle target) s).trace.count
        (CallEvent.uploadChunk target c) ≤ 1 := by
  intro cs
  induction cs with
  | nil => intro s h1 _; exact h1
  | cons c2 cs ih =>
    intro s h1 h2
    rw [List.foldl_cons]
    rcases hserr : s.err with _ | err
    · by_cases hd : hash c2 ∈ s.known
      · rw [stepChunk_skip hash oracle target s c2 hserr hd]
        exact ih _ h1 (by simpa using h2)
      · have hcadd : ∀ tr : List CallEvent,
            (tr ++ [CallEvent.uploadChunk target c2]).count (CallEvent.uploadChunk target c) =
              tr.count (CallEvent.uploadChunk target c) + (if c2 = c then 1 else 0) := by
          intro tr
          rw [List.count_append, List.count_singleton]
          by_cases hcc : c2 = c <;> simp [hcc]
        have hzero : c2 = c → s.trace.count (CallEvent.uploadChunk target c) = 0 := by
          intro hcc
          by_contra hne
          have hone : s.trace.count (CallEvent.uploadChunk target c) = 1 := by omega
          rcases h2 hone with h | h
          · exact hd (hcc ▸ h)
          · exact h hserr
        rcases hup : oracle.upload c2 with e2 | r
        · rw [stepChunk_upload_error hash oracle target s c2 e2 hserr hd hup,
            foldl_stepChunk_absorb hash oracle target cs _ (.remote e2) rfl]
          simp only [hcadd]
          by_cases hcc : c2 = c
          · rw [hzero hcc]
            simp [hcc]
          · simp [hcc]
            omega
        · by_cases hr : r = hash c2
          · subst hr
            rw [stepChunk_upload_ok hash oracle target s c2 hserr hd hup]
            refine ih _ ?_ ?_
            · simp only [hcadd]
              by_cases hcc : c2 = c
              · rw [hzero hcc]; simp [hcc]
              · simp [hcc]; omega
            · intro hcnt
              by_cases hcc : c2 = c
              · subst hcc
                exact Or.inl (by simp)
              · left
                simp only [hcadd, if_neg hcc, Nat.add_zero] at hcnt
                rcases h2 hcnt with h | h
                · simp [h]
                · exact absurd hserr h
          · rw [stepChunk_upload_mismatch hash oracle target s c2 r hserr hd hup hr,
              foldl_stepChunk_absorb hash oracle target cs _ .validation rfl]
            simp only [hcadd]
            by_cases hcc : c2 = c
            · rw [hzero hcc]
              simp [hcc]
            · simp [hcc]
              omega
    · rw [stepChunk_err hash oracle target s c2 err hserr,
        foldl_stepChunk_absorb hash oracle target cs _ err hserr]
      exact h1

theorem uploadsOf_append (tr1 tr2 : List CallEvent) :
    uploadsOf (tr1 ++ tr2) = uploadsOf tr1 ++ uploadsOf tr2 := by
  unfold uploadsOf
  rw [List.filterMap_append]

theorem uploadsOf_map_upload (target : Principal) (l : List (List Nat)) :
    uploadsOf (l.map (CallEvent.uploadChunk target)) = l := by
  induction l with
  | nil => rfl
  | cons c cs ih =>
    simp only [List.map_cons, uploadsOf, List.filterMap_cons]
    simpa [uploadsOf] using ih

theorem install_chunked_failed (hash : List Nat → Digest) (oracle : Oracle) (target : Principal)
    (chunks : List (List Nat)) (remote : List Digest) (mode : InstallMode)
    (init_args : List Nat) (e : OrchError)
    (h : (chunks.foldl (stepChunk hash oracle target)
      { trace := [], known := remote, manifest := [], err := none }).err = some e) :
    install_chunked hash oracle target chunks remote mode init_args =
      ((chunks.foldl (stepChunk hash oracle target)
        { trace := [], known := remote, manifest := [], err := none }).trace, .failed e) := by
  simp only [install_chunked]
  rw [h]

theorem install_chunked_barrier_ok (hash : List Nat → Digest) (oracle : Oracle)
    (target : Principal) (chunks : List (List Nat)) (remote : List Digest)
    (mode : InstallMode) (init_args : List Nat) (u : Unit)
    (h : (chunks.foldl (stepChunk hash oracle target)
      { trace := [], known := remote, manifest := [], err := none }).err = none)
    (hresp : oracle.installChunkedResp = .ok u) :
    install_chunked hash oracle target chunks remote mode init_args =
      ((chunks.foldl (stepChunk hash oracle target)
        { trace := [], known := remote, manifest := [], err := none }).trace ++
        [.installChunkedCode target
          (chunks.foldl (stepChunk hash oracle target)
            { trace := [], known := remote, manifest := [], err := none }).manifest
          (hash chunks.flatten) mode init_args], .done) := by
  simp only [install_chunked]
  rw [h, hresp]

theorem install_chunked_barrier_err (hash : List Nat → Digest) (oracle : Oracle)
    (target : Principal) (chunks : List (List Nat)) (remote : List Digest)
    (mode : InstallMode) (init_args : List Nat) (e : CallErr)
    (h : (chunks.foldl (stepChunk hash oracle target)
      { trace := [], known := remote, manifest := [], err := none }).err = none)
    (hresp : oracle.installChunkedResp = .error e) :
    install_chunked hash oracle target chunks remote mode init_args =
      ((chunks.foldl (stepChunk hash oracle target)
        { trace := [], known := remote, manifest := [], err := none }).trace ++
        [.installChunkedCode target
          (chunks.foldl (stepChunk hash oracle target)
            { trace := [], known := remote, manifest := [], err := none }).manifest
          (hash chunks.flatten) mode init_args], .failed (.remote e)) := by
  simp only [install_chunked]
  rw [h, hresp]

/-- A simple digest function used to instantiate concrete witness runs. -/
def testHash (bs : List Nat) : Digest := [bs.length % 256, bs.sum % 256]

/-- An honest remote host used to instantiate concrete witness runs: every
upload reports the locally computable digest and every call succeeds. -/
def testOracle : Oracle :=
  { upload := fun c => .ok (testHash c)
    installChunkedResp := .ok ()
    installCodeResp := .ok ()
    clearResp := .ok () }

/-- C2: for every module with `len(m) <= threshold` the automatic install
path produces a `OneShot` plan and issues exactly one `install_code` call
carrying the raw bytes — in particular no chunk-store upload call at all —
and a 0-byte module with threshold 1000 yields a `OneShot` plan with empty
payload. -/
theorem install_auto_oneshot (hash : List Nat → Digest) (oracle : Oracle) (target : Principal)
    (m : List Nat) (max_chunk_size threshold : Nat) (remote : List Digest)
    (mode : InstallMode) (init_args : List Nat) (h : m.length ≤ threshold) :
    plan m max_chunk_size threshold = .OneShot m ∧
    (install_auto hash oracle target m max_chunk_size threshold remote mode init_args).1 =
      [.installCode target m mode init_args] ∧
    (∀ c, CallEvent.uploadChunk target c ∉
      (install_auto hash oracle target m max_chunk_size threshold remote mode init_args).1) ∧
    plan ([] : List Nat) max_chunk_size 1000 = .OneShot [] := by
  have hp : plan m max_chunk_size threshold = .OneShot m := by rw [plan, if_pos h]
  have htr : (install_auto hash oracle target m max_chunk_size threshold remote mode
      init_args).1 = [.installCode target m mode init_args] := by
    simp only [install_auto, hp]
    rcases oracle.installCodeResp with e | u <;> rfl
  refine ⟨hp, htr, ?_, by rw [plan]; simp⟩
  intro c
  rw [htr]
  simp

/-- Witness for C2: a 0-byte module with threshold 1000 under a concrete
oracle. -/
theorem install_auto_oneshot_witness :
    plan [] 1000000 1000 = .OneShot [] ∧
    (install_auto testHash testOracle ⟨[9]⟩ [] 1000000 1000 [] .install []).1 =
      [.installCode ⟨[9]⟩ [] .install []] ∧
    (∀ c, CallEvent.uploadChunk ⟨[9]⟩ c ∉
      (install_auto testHash testOracle ⟨[9]⟩ [] 1000000 1000 [] .install []).1) ∧
    plan ([] : List Nat) 1000000 1000 = .OneShot [] :=
  install_auto_oneshot testHash testOracle ⟨[9]⟩ [] 1000000 1000 [] .install []
    (by decide)

/-- C4: in an `install_chunked` run whose uploads are confirmed with the
correct digests, a chunk whose digest is already in the remote snapshot, or
equal to the digest of a chunk uploaded earlier in the same run, is never
uploaded again — the uploads performed are exactly the dedup-filtered
chunks — while every submitted manifest lists the digest of every chunk at
its original position, duplicates not collapsed. -/
theorem install_chunked_dedup (hash : List Nat → Digest) (oracle : Oracle) (target : Principal)
    (chunks : List (List Nat)) (remote : List Digest) (mode : InstallMode)
    (init_args : List Nat) (honest : ∀ c, oracle.upload c = .ok (hash c)) :
    uploadsOf (install_chunked hash oracle target chunks remote mode init_args).1 =
      expectedUploads hash remote chunks ∧
    (∀ man md, CallEvent.installChunkedCode target man md mode init_args ∈
        (install_chunked hash oracle target chunks remote mode init_args).1 →
      man = chunks.map hash) := by
  have hfold := foldl_stepChunk_honest hash oracle target honest chunks
    { trace := [], known := remote, manifest := [], err := none } rfl
  have htr : (install_chunked hash oracle target chunks remote mode init_args).1 =
      (expectedUploads hash remote chunks).map (CallEvent.uploadChunk target) ++
        [.installChunkedCode target (chunks.map hash) (hash chunks.flatten) mode init_args] := by
    rcases hresp : oracle.installChunkedResp with e | u
    · rw [install_chunked_barrier_err hash oracle target chunks remote mode init_args e
        (by rw [hfold]) hresp, hfold]
      simp
    · rw [install_chunked_barrier_ok hash oracle target chunks remote mode init_args u
        (by rw [hfold]) hresp, hfold]
      simp
  rw [htr]
  constructor
  · rw [uploadsOf_append, uploadsOf_map_upload]
    simp [uploadsOf]
  · intro man md hmem
    rcases List.mem_append.mp hmem with hmem | hmem
    · obtain ⟨c, _, hc⟩ := List.mem_map.mp hmem
      exact absurd hc (by simp)
    · simp only [List.mem_singleton, CallEvent.installChunkedCode.injEq] at hmem
      tauto

/-- Witness for C4: two chunks with identical bytes at different offsets
cause one upload call while the manifest lists their digest twice. -/
theorem install_chunked_dedup_witness :
    uploadsOf (install_chunked testHash testOracle ⟨[9]⟩ [[1, 2], [1, 2]] [] .install []).1 =
      expectedUploads testHash [] [[1, 2], [1, 2]] ∧
    (∀ man md, CallEvent.installChunkedCode ⟨[9]⟩ man md .install [] ∈
        (install_chunked testHash testOracle ⟨[9]⟩ [[1, 2], [1, 2]] [] .install []).1 →
      man = [[1, 2], [1, 2]].map testHash) :=
  install_chunked_dedup testHash testOracle ⟨[9]⟩ [[1, 2], [1, 2]] [] .install []
    (fun _ => rfl)

/-- C5: if an upload performed during an `install_chunked` run receives a
host-reported digest that differs from the locally computed digest of the
same chunk bytes, the run fails with a validation error, issues no terminal
install call, stops at that upload (it is the last call of the trace), and
does not retry the upload. -/
theorem upload_digest_mismatch_aborts (hash : List Nat → Digest) (oracle : Oracle)
    (target : Principal) (chunks : List (List Nat)) (remote : List Digest)
    (mode : InstallMode) (init_args : List Nat) (c : List Nat) (r : Digest)
    (hmem : CallEvent.uploadChunk target c ∈
      (install_chunked hash oracle target chunks remote mode init_args).1)
    (hr : oracle.upload c = .ok r) (hne : r ≠ hash c) :
    (install_chunked hash oracle target chunks remote mode init_args).2 =
      .failed .validation ∧
    (∀ man md mode2 args2, CallEvent.installChunkedCode target man md mode2 args2 ∉
      (install_chunked hash oracle target chunks remote mode init_args).1) ∧
    (install_chunked hash oracle target chunks remote mode init_args).1.getLast? =
      some (CallEvent.uploadChunk target c) ∧
    (install_chunked hash oracle target chunks remote mode init_args).1.count
      (CallEvent.uploadChunk target c) = 1 := by
  have hmemF : CallEvent.uploadChunk target c ∈
      (chunks.foldl (stepChunk hash oracle target)
        { trace := [], known := remote, manifest := [], err := none }).trace := by
    rcases herr : (chunks.foldl (stepChunk hash oracle target)
        { trace := [], known := remote, manifest := [], err := none }).err with _ | e
    · rcases hresp : oracle.installChunkedResp with e2 | u
      · rw [install_chunked_barrier_err hash oracle target chunks remote mode init_args e2
          herr hresp] at hmem
        rcases List.mem_append.mp hmem with h | h
        · exact h
        · exact absurd (List.mem_singleton.mp h) (by simp)
      · rw [install_chunked_barrier_ok hash oracle target chunks remote mode init_args u
          herr hresp] at hmem
        rcases List.mem_append.mp hmem with h | h
        · exact h
        · exact absurd (List.mem_singleton.mp h) (by simp)
    · rw [install_chunked_failed hash oracle target chunks remote mode init_args e herr]
        at hmem
      exact hmem
  obtain ⟨herr, hlast, hcount⟩ :=
    foldl_stepChunk_bad hash oracle target c .validation
      (Or.inr ⟨r, hr, hne, rfl⟩) chunks
      { trace := [], known := remote, manifest := [], err := none } rfl rfl hmemF
  have hic := install_chunked_failed hash oracle target chunks remote mode init_args
    .validation herr
  refine ⟨by rw [hic], ?_, by rw [hic]; exact hlast, by rw [hic]; exact hcount⟩
  intro man md mode2 args2 hinst
  rw [hic] at hinst
  rcases foldl_stepChunk_trace_shape hash oracle target chunks
      { trace := [], known := remote, manifest := [], err := none } _ hinst with h | ⟨c2, h⟩
  · simp at h
  · exact absurd h (by simp)

/-- Witness for C5: a host that reports a wrong digest for the chunk
`[1, 2]` makes the concrete run fail validation with no install call. -/
theorem upload_digest_mismatch_aborts_witness :
    (install_chunked testHash
        { upload := fun _ => .ok [99], installChunkedResp := .ok (),
          installCodeResp := .ok (), clearResp := .ok () }
        ⟨[9]⟩ [[1, 2]] [] .install []).2 = .failed .validation ∧
    (∀ man md mode2 args2, CallEvent.installChunkedCode ⟨[9]⟩ man md mode2 args2 ∉
      (install_chunked testHash
        { upload := fun _ => .ok [99], installChunkedResp := .ok (),
          installCodeResp := .ok (), clearResp := .ok () }
        ⟨[9]⟩ [[1, 2]] [] .install []).1) ∧
    (install_chunked testHash
        { upload := fun _ => .ok [99], installChunkedResp := .ok (),
          installCodeResp := .ok (), clearResp := .ok () }
        ⟨[9]⟩ [[1, 2]] [] .install []).1.getLast? =
      some (CallEvent.uploadChunk ⟨[9]⟩ [1, 2]) ∧
    (install_chunked testHash
        { upload := fun _ => .ok [99], installChunkedResp := .ok (),
          installCodeResp := .ok (), clearResp := .ok () }
        ⟨[9]⟩ [[1, 2]] [] .install []).1.count
      (CallEvent.uploadChunk ⟨[9]⟩ [1, 2]) = 1 :=
  upload_digest_mismatch_aborts testHash
    { upload := fun _ => .ok [99], installChunkedResp := .ok (),
      installCodeResp := .ok (), clearResp := .ok () }
    ⟨[9]⟩ [[1, 2]] [] .install [] [1, 2] [99] (by decide) rfl (by decide)

theorem upload_mem_foldl_of_mem_run (hash : List Nat → Digest) (oracle : Oracle)
    (target : Principal) (chunks : List (List Nat)) (remote : List Digest)
    (mode : InstallMode) (init_args : List Nat) (c : List Nat)
    (hmem : CallEvent.uploadChunk target c ∈
      (install_chunked hash oracle target chunks remote mode init_args).1) :
    CallEvent.uploadChunk target c ∈
      (chunks.foldl (stepChunk hash oracle target)
        { trace := [], known := remote, manifest := [], err := none }).trace := by
  rcases herr : (chunks.foldl (stepChunk hash oracle target)
      { trace := [], known := remote, manifest := [], err := none }).err with _ | e
  · rcases hresp : oracle.installChunkedResp with e2 | u
    · rw [install_chunked_barrier_err hash oracle target chunks remote mode init_args e2
        herr hresp] at hmem
      rcases List.mem_append.mp hmem with h | h
      · exact h
      · exact absurd (List.mem_singleton.mp h) (by simp)
    · rw [install_chunked_barrier_ok hash oracle target chunks remote mode init_args u
        herr hresp] at hmem
      rcases List.mem_append.mp hmem with h | h
      · exact h
      · exact absurd (List.mem_singleton.mp h) (by simp)
  · rw [install_chunked_failed hash oracle target chunks remote mode init_args e herr]
      at hmem
    exact hmem

/-- C6: the terminal `install_chunked_code` call is a barrier: when it
appears in a run's trace it is the last call, carries the full manifest,
and every upload of the run was confirmed with the correct digest; if any
upload of the run errored or failed verification, no install call appears
in the trace and the run ends in the terminal `failed` state; and no chunk
is ever uploaded twice (no automatic retry). -/
theorem install_barrier (hash : List Nat → Digest) (oracle : Oracle) (target : Principal)
    (chunks : List (List Nat)) (remote : List Digest) (mode : InstallMode)
    (init_args : List Nat) :
    (∀ man md, CallEvent.installChunkedCode target man md mode init_args ∈
        (install_chunked hash oracle target chunks remote mode init_args).1 →
      (install_chunked hash oracle target chunks remote mode init_args).1.getLast? =
        some (CallEvent.installChunkedCode target man md mode init_args) ∧
      man = chunks.map hash ∧
      (∀ c, CallEvent.uploadChunk target c ∈
          (install_chunked hash oracle target chunks remote mode init_args).1 →
        oracle.upload c = .ok (hash c))) ∧
    (∀ c, CallEvent.uploadChunk target c ∈
        (install_chunked hash oracle target chunks remote mode init_args).1 →
      ((∃ e, oracle.upload c = .error e) ∨
        (∃ r, oracle.upload c = .ok r ∧ r ≠ hash c)) →
      (∃ e, (install_chunked hash oracle target chunks remote mode init_args).2 =
        .failed e) ∧
      (∀ man md mode2 args2, CallEvent.installChunkedCode target man md mode2 args2 ∉
        (install_chunked hash oracle target chunks remote mode init_args).1)) ∧
    (∀ c, (install_chunked hash oracle target chunks remote mode init_args).1.count
      (CallEvent.uploadChunk target c) ≤ 1) := by
  refine ⟨?_, ?_, ?_⟩
  · intro man md hmem
    rcases herr : (chunks.foldl (stepChunk hash oracle target)
        { trace := [], known := remote, manifest := [], err := none }).err with _ | e
    · obtain ⟨hman, hup⟩ := foldl_stepChunk_success hash oracle target chunks
        { trace := [], known := remote, manifest := [], err := none } rfl herr
      have htr : (install_chunked hash oracle target chunks remote mode init_args).1 =
          (chunks.foldl (stepChunk hash oracle target)
            { trace := [], known := remote, manifest := [], err := none }).trace ++
          [.installChunkedCode target
            (chunks.foldl (stepChunk hash oracle target)
              { trace := [], known := remote, manifest := [], err := none }).manifest
            (hash chunks.flatten) mode init_args] := by
        rcases hresp : oracle.installChunkedResp with e2 | u
        · rw [install_chunked_barrier_err hash oracle target chunks remote mode init_args
            e2 herr hresp]
        · rw [install_chunked_barrier_ok hash oracle target chunks remote mode init_args
            u herr hresp]
      rw [htr] at hmem
      have hev : CallEvent.installChunkedCode target man md mode init_args =
          CallEvent.installChunkedCode target
            (chunks.foldl (stepChunk hash oracle target)
              { trace := [], known := remote, manifest := [], err := none }).manifest
            (hash chunks.flatten) mode init_args := by
        rcases List.mem_append.mp hmem with h | h
        · rcases foldl_stepChunk_trace_shape hash oracle target chunks
              { trace := [], known := remote, manifest := [], err := none } _ h
            with h2 | ⟨c2, h2⟩
          · simp at h2
          · exact absurd h2 (by simp)
        · exact List.mem_singleton.mp h
      refine ⟨?_, ?_, ?_⟩
      · rw [htr, List.getLast?_concat, hev]
      · have := hman
        simp only [List.nil_append] at this
        have hm2 : man = (chunks.foldl (stepChunk hash oracle target)
            { trace := [], known := remote, manifest := [], err := none }).manifest := by
          have := hev
          simp only [CallEvent.installChunkedCode.injEq] at this
          tauto
        rw [hm2, this]
      · intro c hc
        rw [htr] at hc
        rcases List.mem_append.mp hc with h | h
        · rcases hup c h with h2 | h2
          · simp at h2
          · exact h2
        · exact absurd (List.mem_singleton.mp h) (by simp)
    · have hic := install_chunked_failed hash oracle target chunks remote mode init_args
        e herr
      rw [hic] at hmem
      rcases foldl_stepChunk_trace_shape hash oracle target chunks
          { trace := [], known := remote, manifest := [], err := none } _ hmem
        with h2 | ⟨c2, h2⟩
      · simp at h2
      · exact absurd h2 (by simp)
  · intro c hmem hbad
    have hmemF := upload_mem_foldl_of_mem_run hash oracle target chunks remote mode
      init_args c hmem
    rcases hbad with ⟨e, he⟩ | ⟨r, hr, hne⟩
    · obtain ⟨herr, _, _⟩ := foldl_stepChunk_bad hash oracle target c (.remote e)
        (Or.inl ⟨e, he, rfl⟩) chunks
        { trace := [], known := remote, manifest := [], err := none } rfl rfl hmemF
      have hic := install_chunked_failed hash oracle target chunks remote mode init_args
        _ herr
      refine ⟨⟨.remote e, by rw [hic]⟩, ?_⟩
      intro man md mode2 args2 hinst
      rw [hic] at hinst
      rcases foldl_stepChunk_trace_shape hash oracle target chunks
          { trace := [], known := remote, manifest := [], err := none } _ hinst
        with h2 | ⟨c2, h2⟩
      · simp at h2
      · exact absurd h2 (by simp)
    · obtain ⟨herr, _, _⟩ := foldl_stepChunk_bad hash oracle target c .validation
        (Or.inr ⟨r, hr, hne, rfl⟩) chunks
        { trace := [], known := remote, manifest := [], err := none } rfl rfl hmemF
      have hic := install_chunked_failed hash oracle target chunks remote mode init_args
        _ herr
      refine ⟨⟨.validation, by rw [hic]⟩, ?_⟩
      intro man md mode2 args2 hinst
      rw [hic] at hinst
      rcases foldl_stepChunk_trace_shape hash oracle target chunks
          { trace := [], known := remote, manifest := [], err := none } _ hinst
        with h2 | ⟨c2, h2⟩
      · simp at h2
      · exact absurd h2 (by simp)
  · intro c
    have hcnt := foldl_stepChunk_count hash oracle target c chunks
      { trace := [], known := remote, manifest := [], err := none }
      (by simp) (by simp)
    rcases herr : (chunks.foldl (stepChunk hash oracle target)
        { trace := [], known := remote, manifest := [], err := none }).err with _ | e
    · rcases hresp : oracle.installChunkedResp with e2 | u
      · rw [install_chunked_barrier_err hash oracle target chunks remote mode init_args
          e2 herr hresp]
        rw [List.count_append, List.count_singleton]
        simpa using hcnt
      · rw [install_chunked_barrier_ok hash oracle target chunks remote mode init_args
          u herr hresp]
        rw [List.count_append, List.count_singleton]
        simpa using hcnt
    · rw [install_chunked_failed hash oracle target chunks remote mode init_args e herr]
      exact hcnt

theorem install_auto_chunked_done (hash : List Nat → Digest) (oracle : Oracle)
    (target : Principal) (m : List Nat) (max_chunk_size threshold : Nat)
    (remote : List Digest) (mode : InstallMode) (init_args : List Nat)
    (tr0 : List CallEvent) (hgt : ¬ m.length ≤ threshold)
    (hic : install_chunked hash oracle target (chunksOf max_chunk_size m) remote mode
      init_args = (tr0, .done)) :
    (install_auto hash oracle target m max_chunk_size threshold remote mode init_args).1 =
      tr0 ++ [.clearChunkStore target] := by
  simp only [install_auto, plan, if_neg hgt, hic]
  rcases oracle.clearResp with e | u <;> rfl

theorem install_auto_chunked_failed (hash : List Nat → Digest) (oracle : Oracle)
    (target : Principal) (m : List Nat) (max_chunk_size threshold : Nat)
    (remote : List Digest) (mode : InstallMode) (init_args : List Nat)
    (tr0 : List CallEvent) (e : OrchError) (hgt : ¬ m.length ≤ threshold)
    (hic : install_chunked hash oracle target (chunksOf max_chunk_size m) remote mode
      init_args = (tr0, .failed e)) :
    (install_auto hash oracle target m max_chunk_size threshold remote mode init_args).1 =
      tr0 := by
  simp only [install_auto, plan, if_neg hgt, hic]

/-- C7: the one-shot path of the automatic install never touches the chunk
store; on the chunked path, whenever the chunk store is cleared the clear is
the last call and comes directly after the terminal install call, which the
host answered successfully; and on a fully successful chunked run the store
is indeed cleared. -/
theorem install_auto_clear_after_install (hash : List Nat → Digest) (oracle : Oracle)
    (target : Principal) (m : List Nat) (max_chunk_size threshold : Nat)
    (remote : List Digest) (mode : InstallMode) (init_args : List Nat) :
    (m.length ≤ threshold →
      (∀ c, CallEvent.uploadChunk target c ∉
        (install_auto hash oracle target m max_chunk_size threshold remote mode
          init_args).1) ∧
      CallEvent.clearChunkStore target ∉
        (install_auto hash oracle target m max_chunk_size threshold remote mode
          init_args).1) ∧
    (CallEvent.clearChunkStore target ∈
        (install_auto hash oracle target m max_chunk_size threshold remote mode
          init_args).1 →
      ∃ tr2 man md,
        (install_auto hash oracle target m max_chunk_size threshold remote mode
          init_args).1 =
          tr2 ++ [CallEvent.installChunkedCode target man md mode init_args,
            CallEvent.clearChunkStore target] ∧
        oracle.installChunkedResp = .ok () ∧
        CallEvent.clearChunkStore target ∉ tr2) ∧
    (threshold < m.length → (∀ c, oracle.upload c = .ok (hash c)) →
      oracle.installChunkedResp = .ok () →
      CallEvent.clearChunkStore target ∈
        (install_auto hash oracle target m max_chunk_size threshold remote mode
          init_args).1) := by
  refine ⟨?_, ?_, ?_⟩
  · intro hle
    have htr : (install_auto hash oracle target m max_chunk_size threshold remote mode
        init_args).1 = [.installCode target m mode init_args] := by
      simp only [install_auto, plan, if_pos hle]
      rcases oracle.installCodeResp with e | u <;> rfl
    rw [htr]
    constructor
    · intro c
      simp
    · simp
  · intro hclear
    by_cases hle : m.length ≤ threshold
    · have htr : (install_auto hash oracle target m max_chunk_size threshold remote mode
          init_args).1 = [.installCode target m mode init_args] := by
        simp only [install_auto, plan, if_pos hle]
        rcases oracle.installCodeResp with e | u <;> rfl
      rw [htr] at hclear
      exact absurd (List.mem_singleton.mp hclear) (by simp)
    · rcases hic : install_chunked hash oracle target (chunksOf max_chunk_size m) remote
          mode init_args with ⟨tr0, st⟩
      rcases st with _ | e
      · have herr : (((chunksOf max_chunk_size m).foldl (stepChunk hash oracle target)
            { trace := [], known := remote, manifest := [], err := none }).err) = none := by
          rcases h2 : (((chunksOf max_chunk_size m).foldl (stepChunk hash oracle target)
              { trace := [], known := remote, manifest := [], err := none }).err) with _ | e2
          · rfl
          · have h5 := (install_chunked_failed hash oracle target (chunksOf max_chunk_size m)
              remote mode init_args e2 h2).symm.trans hic
            injection h5 with h6 h7
            exact absurd h7 (by simp)
        rcases hresp : oracle.installChunkedResp with e2 | u
        · have h5 := (install_chunked_barrier_err hash oracle target
            (chunksOf max_chunk_size m) remote mode init_args e2 herr
            hresp).symm.trans hic
          injection h5 with h6 h7
          exact absurd h7 (by simp)
        · have h5 := (install_chunked_barrier_ok hash oracle target
            (chunksOf max_chunk_size m) remote mode init_args u herr
            hresp).symm.trans hic
          injection h5 with h6 h7
          refine ⟨((chunksOf max_chunk_size m).foldl (stepChunk hash oracle target)
              { trace := [], known := remote, manifest := [], err := none }).trace,
            ((chunksOf max_chunk_size m).foldl (stepChunk hash oracle target)
              { trace := [], known := remote, manifest := [], err := none }).manifest,
            hash (chunksOf max_chunk_size m).flatten, ?_, ?_, ?_⟩
          · rw [install_auto_chunked_done hash oracle target m max_chunk_size threshold
              remote mode init_args tr0 hle hic, ← h6]
            simp
          · rfl
          · intro hmem
            rcases foldl_stepChunk_trace_shape hash oracle target (chunksOf max_chunk_size m)
                { trace := [], known := remote, manifest := [], err := none } _ hmem
              with h2 | ⟨c2, h2⟩
            · simp at h2
            · exact absurd h2 (by simp)
      · rw [install_auto_chunked_failed hash oracle target m max_chunk_size threshold
          remote mode init_args tr0 e hle hic] at hclear
        exfalso
        rcases h2 : (((chunksOf max_chunk_size m).foldl (stepChunk hash oracle target)
            { trace := [], known := remote, manifest := [], err := none }).err) with _ | e2
        · rcases hresp : oracle.installChunkedResp with e3 | u
          · have h5 := (install_chunked_barrier_err hash oracle target
              (chunksOf max_chunk_size m) remote mode init_args e3 h2
              hresp).symm.trans hic
            injection h5 with h6 h7
            rw [← h6] at hclear
            rcases List.mem_append.mp hclear with h3 | h3
            · rcases foldl_stepChunk_trace_shape hash oracle target
                  (chunksOf max_chunk_size m)
                  { trace := [], known := remote, manifest := [], err := none } _ h3
                with h4 | ⟨c2, h4⟩
              · simp at h4
              · exact absurd h4 (by simp)
            · exact absurd (List.mem_singleton.mp h3) (by simp)
          · have h5 := (install_chunked_barrier_ok hash oracle target
              (chunksOf max_chunk_size m) remote mode init_args u h2
              hresp).symm.trans hic
            injection h5 with h6 h7
            exact absurd h7 (by simp)
        · have h5 := (install_chunked_failed hash oracle target (chunksOf max_chunk_size m)
            remote mode init_args e2 h2).symm.trans hic
          injection h5 with h6 h7
          rw [← h6] at hclear
          rcases foldl_stepChunk_trace_shape hash oracle target (chunksOf max_chunk_size m)
              { trace := [], known := remote, manifest := [], err := none } _ hclear
            with h4 | ⟨c2, h4⟩
          · simp at h4
          · exact absurd h4 (by simp)
  · intro hgt honest hresp
    have hfold := foldl_stepChunk_honest hash oracle target honest
      (chunksOf max_chunk_size m)
      { trace := [], known := remote, manifest := [], err := none } rfl
    have hic := install_chunked_barrier_ok hash oracle target (chunksOf max_chunk_size m)
      remote mode init_args () (by rw [hfold]) hresp
    rw [install_auto_chunked_done hash oracle target m max_chunk_size threshold remote
      mode init_args _ (by omega) hic]
    simp

/-- C8: each chunk-store operation dispatches its exact wire method name and
argument schema: `upload_chunk` with `{canister_id, chunk}` yielding a
32-byte digest, `stored_chunks` with `{canister_id}` yielding a list of
32-byte digests, `clear_chunk_store` with `{canister_id}` yielding unit. -/
theorem chunk_store_wire_methods (mc : ManagementCanister) (cid : Principal)
    (chunk : List Nat) :
    ((mc.upload_chunk cid chunk).method = "upload_chunk" ∧
      (mc.upload_chunk cid chunk).arg = some (.canisterIdChunk cid chunk) ∧
      (mc.upload_chunk cid chunk).result = .chunkHashResult) ∧
    ((mc.stored_chunks cid).method = "stored_chunks" ∧
      (mc.stored_chunks cid).arg = some (.canisterIdRecord cid) ∧
      (mc.stored_chunks cid).result = .chunkHashVecResult) ∧
    ((mc.clear_chunk_store cid).method = "clear_chunk_store" ∧
      (mc.clear_chunk_store cid).arg = some (.canisterIdRecord cid) ∧
      (mc.clear_chunk_store cid).result = .unitResult) ∧
    (∀ h : ChunkHash, h.val.length = 32) :=
  ⟨⟨rfl, rfl, rfl⟩, ⟨rfl, rfl, rfl⟩, ⟨rfl, rfl, rfl⟩, fun h => h.property⟩

/-- C9: every per-target operation attaches the `canister_id` parameter as
the effective routing identity of the dispatched call, so all calls of one
orchestration against a single target route to the same host. -/
theorem effective_canister_id_matches_target (mc : ManagementCanister) (cid : Principal)
    (chunk : List Nat) (amount : Nat) :
    (mc.upload_chunk cid chunk).effective_canister_id = some cid ∧
    (mc.clear_chunk_store cid).effective_canister_id = some cid ∧
    (mc.stored_chunks cid).effective_canister_id = some cid ∧
    (mc.canister_status cid).effective_canister_id = some cid ∧
    (mc.deposit_cycles cid).effective_canister_id = some cid ∧
    (mc.delete_canister cid).effective_canister_id = some cid ∧
    (mc.provisional_top_up_canister cid amount).effective_canister_id = some cid ∧
    (mc.start_canister cid).effective_canister_id = some cid ∧
    (mc.stop_canister cid).effective_canister_id = some cid ∧
    (mc.uninstall_code cid).effective_canister_id = some cid ∧
    (mc.upload_chunk cid chunk).effective_canister_id =
      (mc.clear_chunk_store cid).effective_canister_id ∧
    (mc.upload_chunk cid chunk).effective_canister_id =
      (mc.stored_chunks cid).effective_canister_id :=
  ⟨rfl, rfl, rfl, rfl, rfl, rfl, rfl, rfl, rfl, rfl, rfl, rfl⟩

/-- C10: for every agent, `ManagementCanister::create` succeeds (the
internal unwrap never panics) and yields an interface whose addressed
canister is the fixed management-canister principal; the chunk-store calls
built from it address that principal, differing only in effective routing
identity. -/
theorem create_addresses_management_canister (agent : Agent) :
    ManagementCanister.create agent =
      some ⟨⟨agent, Principal.management_canister⟩⟩ ∧
    (∀ mc, ManagementCanister.create agent = some mc →
      mc.canister.canister_id = Principal.management_canister ∧
      (∀ cid chunk, (mc.upload_chunk cid chunk).canister_id =
        Principal.management_canister) ∧
      (∀ cid, (mc.stored_chunks cid).canister_id = Principal.management_canister) ∧
      (∀ cid, (mc.clear_chunk_store cid).canister_id =
        Principal.management_canister)) := by
  refine ⟨rfl, ?_⟩
  intro mc hmc
  have h : (⟨⟨agent, Principal.management_canister⟩⟩ : ManagementCanister) = mc := by
    have h2 : (some ⟨⟨agent, Principal.management_canister⟩⟩ :
        Option ManagementCanister) = some mc := hmc
    injection h2
  subst h
  exact ⟨rfl, fun cid chunk => rfl, fun cid => rfl, fun cid => rfl⟩
